import Mathlib

/-!
Verification of the topic-aggregation logic of `src/output.py`
(Openrank-OpenGov-Hub).

The script reads a CSV with pandas, counts topic labels
(`count_topics_from_csv`), ranks them (`generate_wordcloud_data`) and
writes three artifacts (`main`).  Below is a shallow embedding of that
code.  Scalar cells coming out of `pandas.read_csv` are modelled by
`Cell`: a cell is either missing (`nan`, pandas represents an empty cell
of an existing column as the float NaN), a string, or some other
non-string scalar (e.g. a number), carried together with its Python
`str()` form and its Python truth value.  A record models one row after
the `row.get(col, '')` accesses, so an absent *column* shows up as
`Cell.str ""` (the `.get` default).
-/

/-- A scalar cell as produced by `pandas.read_csv` / `row.get`. -/
inductive Cell where
  | nan : Cell
  | str : String → Cell
  | other : String → Bool → Cell
deriving DecidableEq

/-- Python `pandas.isna`: true exactly on a missing (NaN) cell. -/
def pdIsna : Cell → Bool
  | Cell.nan => true
  | _ => false

/-- Python `cell == ''`: only the empty string compares equal to `''`
(NaN and non-string scalars compare unequal to a string). -/
def cellEqEmptyString : Cell → Bool
  | Cell.str s => s == ""
  | _ => false

/-- Python `str(cell)`: identity on strings, `"nan"` for the float NaN,
and the carried textual form for any other scalar. -/
def cellStr : Cell → String
  | Cell.nan => "nan"
  | Cell.str s => s
  | Cell.other r _ => r

/-- Python truthiness `bool(cell)`.  Note `bool(float('nan'))` is `True`:
a missing cell is truthy. -/
def cellTruthy : Cell → Bool
  | Cell.nan => true
  | Cell.str s => !(s == "")
  | Cell.other _ t => t

/-- Python `==` between cells.  NaN compares unequal to everything,
itself included (each pandas access boxes a fresh float).  A string never
equals a non-string.  Two non-string scalars are compared through their
textual form (numbers read from a CSV are equal iff their repr is). -/
def cellPyEq : Cell → Cell → Bool
  | Cell.str a, Cell.str b => a == b
  | Cell.other a _, Cell.other b _ => a == b
  | _, _ => false

/-- Python `c in l` over a list of cells (elementwise `==`). -/
def cellMem (c : Cell) (l : List Cell) : Bool :=
  l.any (fun x => cellPyEq c x)

/-- One row of the input table, after `row.get('repo_name', '')` and
`row.get('topics', '')`. -/
structure Record where
  repo_name : Cell
  topics : Cell
deriving DecidableEq

/-- One value of the `topic_map` dict built by `count_topics_from_csv`:
`{'topic': ..., 'count': ..., 'repos': [...]}`. -/
structure TopicStat where
  topic : String
  count : Nat
  repos : List Cell
deriving DecidableEq

/-- The `topic_map` dict.  A Python dict iterates in insertion order, so
it is embedded as an association list: a fresh key is appended at the
end, an existing key is updated in place. -/
abbrev TopicMap := List (String × TopicStat)

/-- Dict lookup `m[key]` / `key in m` (first — and by construction
only — entry with the key). -/
def lookupTopic : TopicMap → String → Option TopicStat
  | [], _ => none
  | (k, v) :: m, key => if k = key then some v else lookupTopic m key

/-- Dict update `m[key] = st` for a key already present. -/
def setTopic : TopicMap → String → TopicStat → TopicMap
  | [], _, _ => []
  | (k, v) :: m, key, st =>
      if k = key then (k, st) :: m else (k, v) :: setTopic m key st

/-- The keys of the map, in insertion order. -/
def topicKeys (m : TopicMap) : List String := m.map Prod.fst

/-- Python `str.lower()` (ASCII case folding, which covers the data the
script processes). -/
def pyLower (s : String) : String := String.mk (s.data.map Char.toLower)

/-- Strip a whitespace prefix, then (via reversal) a whitespace suffix:
the character-list form of Python `str.strip()`. -/
def trimList (l : List Char) : List Char :=
  ((l.dropWhile Char.isWhitespace).reverse.dropWhile Char.isWhitespace).reverse

/-- Python `str.strip()`. -/
def pyTrim (s : String) : String := String.mk (trimList s.data)

/-- Python `s.split(',')`: split at every comma, keeping empty pieces. -/
def splitCommaAux : List Char → List Char → List (List Char)
  | [], cur => [cur.reverse]
  | c :: cs, cur =>
      if c = (',' : Char) then cur.reverse :: splitCommaAux cs []
      else splitCommaAux cs (c :: cur)

/-- Python `s.split(',')` on strings. -/
def splitComma (s : String) : List String :=
  (splitCommaAux s.data []).map String.mk

/-- Line 63: `[t.strip() for t in str(topics_str).split(',') if t.strip()]`
(strip each piece, keep the non-empty ones). -/
def parseTopics (s : String) : List String :=
  ((splitComma s).map pyTrim).filter (fun t => t != "")

/-- Lines 66-75, body of the inner loop, fused into the update applied to
the (fresh or existing) stat: increment `count`, then append the record's
repository cell when it is truthy and not already present. -/
def updateStat (repo_name : Cell) (st : TopicStat) : TopicStat :=
  let st1 : TopicStat := { st with count := st.count + 1 }
  if cellTruthy repo_name && !(cellMem repo_name st1.repos) then
    { st1 with repos := st1.repos ++ [repo_name] }
  else st1

/-- Lines 65-75: process one parsed topic of one record.  A topic whose
lowercase key is unseen creates a fresh entry `{topic, 0, []}` (appended
at the dict's end), which is then updated like an existing one. -/
def processTopic (repo_name : Cell) (m : TopicMap) (topic : String) : TopicMap :=
  let topic_lower := pyLower topic
  match lookupTopic m topic_lower with
  | none =>
      m ++ [(topic_lower, updateStat repo_name { topic := topic, count := 0, repos := [] })]
  | some st => setTopic m topic_lower (updateStat repo_name st)

/-- Line 59: the guard `pd.isna(topics_str) or topics_str == ''`. -/
def skipTopics (c : Cell) : Bool := pdIsna c || cellEqEmptyString c

/-- Lines 55-75: process one row of the table. -/
def processRecord (m : TopicMap) (r : Record) : TopicMap :=
  if skipTopics r.topics then m
  else (parseTopics (cellStr r.topics)).foldl (processTopic r.repo_name) m

/-- Lines 37-77: `count_topics_from_csv`, the whole aggregation pass over
the rows of the table. -/
def count_topics_from_csv (records : List Record) : TopicMap :=
  records.foldl processRecord []

/-- One element of the list returned by `generate_wordcloud_data`. -/
structure RankedEntry where
  name : String
  value : Nat
  count : Nat
  repos : List Cell
deriving DecidableEq

/-- Lines 98-106: the dict built for each ranked stat. -/
def toRankedEntry (stat : TopicStat) : RankedEntry :=
  { name := stat.topic, value := stat.count, count := stat.count, repos := stat.repos }

/-- Stable insertion step for descending count: an element being inserted
goes after every already-placed element of greater or equal count, which
is exactly the tie behaviour of Python's stable `list.sort`. -/
def insertByCountDesc (x : TopicStat) : List TopicStat → List TopicStat
  | [] => [x]
  | y :: ys =>
      if x.count ≤ y.count then y :: insertByCountDesc x ys
      else x :: y :: ys

/-- Line 93: `stats_list.sort(key=lambda x: x['count'], reverse=True)`.
Python's sort is stable and a stable sort under a fixed key is unique, so
the stable insertion sort is an exact embedding. -/
def sortByCountDesc (l : List TopicStat) : List TopicStat :=
  l.foldl (fun acc x => insertByCountDesc x acc) []

/-- Lines 80-106: `generate_wordcloud_data`: values in insertion order,
stable-sorted by count descending, truncated to `top_n`, mapped to
entries. -/
def generate_wordcloud_data (topic_map : TopicMap) (top_n : Nat) : List RankedEntry :=
  let stats_list := sortByCountDesc (topic_map.map Prod.snd)
  let top_n_list := stats_list.take top_n
  top_n_list.map toRankedEntry

/-- Python `isinstance(cell, str)`. -/
def cellIsStr : Cell → Bool
  | Cell.str _ => true
  | _ => false

/-- Output path constant `OUTPUT_JSON` (relative to the script dir). -/
def OUTPUT_JSON : String := "output/json/tech_wordcloud_data.json"

/-- Output path constant `OUTPUT_CSV`. -/
def OUTPUT_CSV : String := "output/csv/tech_wordcloud_data.csv"

/-- Output path constant `OUTPUT_EXCEL`. -/
def OUTPUT_EXCEL : String := "output/excel/tech_wordcloud_data.xlsx"

/-- Observable outcome of one run of `main`. -/
structure MainOutcome where
  reported_missing : Bool
  topic_map : Option TopicMap
  written : List String
deriving DecidableEq

/-- Lines 156 and 170: `save_excel` evaluates
`', '.join(item['repos'][:10])` for the top-N entries (sheet 1, built
first) and then `', '.join(stat['repos'][:10])` for *all* stats
(sheet 2), before the workbook is opened or written.  Python's
`str.join` raises TypeError on any non-string element, so the Excel
artifact is produced iff the first ten repos cells of every stat are
strings; because the sheet-2 pass ranges over every stat and repos lists
are shared with the entries, that single condition decides both sheets. -/
def excelJoinOk (topic_map : TopicMap) : Bool :=
  (topic_map.map Prod.snd).all (fun st => (st.repos.take 10).all cellIsStr)

/-- Lines 183-215: `main`.  The input-existence check comes first; on
failure the function returns after printing the error, running no
aggregation and writing nothing.  Otherwise it aggregates once and the
writers run in order `save_json`, `save_csv`, `save_excel`.  The first
two cannot fail on an aggregated map: `json.dump` serializes a float NaN
as `NaN` (`allow_nan` defaults to true) and `save_csv` only takes
`len(item['repos'])`.  `save_excel`, however, joins the repos cells and
raises TypeError on a non-string (e.g. the NaN of a missing repository
cell) before creating its file, leaving only the first two artifacts on
disk. -/
def mainModel (input_exists : Bool) (records : List Record) : MainOutcome :=
  if !input_exists then
    { reported_missing := true, topic_map := none, written := [] }
  else
    let topic_map := count_topics_from_csv records
    if excelJoinOk topic_map then
      { reported_missing := false
        topic_map := some topic_map
        written := [OUTPUT_JSON, OUTPUT_CSV, OUTPUT_EXCEL] }
    else
      { reported_missing := false
        topic_map := some topic_map
        written := [OUTPUT_JSON, OUTPUT_CSV] }

/-! Specification-side functions, used only to state the claims. -/

/-- The `(repository cell, parsed topic)` pairs one record contributes to
the inner loop (empty when the record is skipped). -/
def recordPairs (r : Record) : List (Cell × String) :=
  if skipTopics r.topics then []
  else (parseTopics (cellStr r.topics)).map (fun t => (r.repo_name, t))

/-- All contributed pairs of a record sequence, in scan order. -/
def occPairs : List Record → List (Cell × String)
  | [] => []
  | r :: rs => recordPairs r ++ occPairs rs

/-- All parsed topic occurrences of a record sequence, in scan order. -/
def occList (rs : List Record) : List String := (occPairs rs).map Prod.snd

/-- The number of (non-skipped) records whose trimmed, comma-split topics
list contains a label with the given lowercase key — the quantity claim C1
says `count` equals. -/
def recordsContaining (records : List Record) (k : String) : Nat :=
  (records.filter (fun r =>
    !skipTopics r.topics &&
      (parseTopics (cellStr r.topics)).any (fun t => pyLower t == k))).length

/-- The effect of one contributed pair on the map entry of its key:
creation (on `none`) followed by `updateStat` — the per-key abstraction
of `processTopic`. -/
def stepStat : Option TopicStat → (Cell × String) → Option TopicStat
  | none, p => some (updateStat p.1 { topic := p.2, count := 0, repos := [] })
  | some st, p => some (updateStat p.1 st)

/-- True when the string neither starts nor ends with whitespace. -/
def noEdgeWs (s : String) : Bool :=
  (match s.data.head? with
   | none => true
   | some c => !c.isWhitespace)
  &&
  (match s.data.getLast? with
   | none => true
   | some c => !c.isWhitespace)

/-! ### Lookup lemmas for the association-list dict -/

theorem lookupTopic_append_of_none (m : TopicMap) {key : String} (k : String)
    (v : TopicStat) (h : lookupTopic m key = none) :
    lookupTopic (m ++ [(key, v)]) k = if key = k then some v else lookupTopic m k := by
  induction m with
  | nil => rfl
  | cons e m ih =>
      obtain ⟨k0, w⟩ := e
      by_cases hk : k0 = key
      · subst hk; simp [lookupTopic] at h
      · have h' : lookupTopic m key = none := by simpa [lookupTopic, hk] using h
        by_cases hq : k0 = k
        · subst hq
          have : ¬ key = k0 := fun e => hk e.symm
          simp [lookupTopic, this]
        · simp [lookupTopic, hq, ih h']

theorem lookupTopic_setTopic_self (m : TopicMap) (key : String) (v w : TopicStat)
    (h : lookupTopic m key = some w) :
    lookupTopic (setTopic m key v) key = some v := by
  induction m with
  | nil => simp [lookupTopic] at h
  | cons e m ih =>
      obtain ⟨k0, u⟩ := e
      by_cases hk : k0 = key
      · subst hk; simp [setTopic, lookupTopic]
      · have h' : lookupTopic m key = some w := by simpa [lookupTopic, hk] using h
        simp [setTopic, lookupTopic, hk, ih h']

theorem lookupTopic_setTopic_ne (m : TopicMap) (key k : String) (v : TopicStat)
    (h : k ≠ key) :
    lookupTopic (setTopic m key v) k = lookupTopic m k := by
  induction m with
  | nil => rfl
  | cons e m ih =>
      obtain ⟨k0, u⟩ := e
      by_cases hk : k0 = key
      · subst hk
        have : ¬ k0 = k := fun e => h (e.symm)
        simp [setTopic, lookupTopic, this]
      · by_cases hq : k0 = k
        · subst hq; simp [setTopic, lookupTopic, hk]
        · simp [setTopic, lookupTopic, hk, hq, ih]

/-! ### Per-key characterization of the aggregation pass -/

theorem lookupTopic_processTopic (repo : Cell) (m : TopicMap) (t k : String) :
    lookupTopic (processTopic repo m t) k =
      if pyLower t = k then stepStat (lookupTopic m k) (repo, t)
      else lookupTopic m k := by
  cases hl : lookupTopic m (pyLower t) with
  | none =>
      have hp : processTopic repo m t
          = m ++ [(pyLower t, updateStat repo { topic := t, count := 0, repos := [] })] := by
        simp only [processTopic, hl]
      rw [hp, lookupTopic_append_of_none m k _ hl]
      by_cases hk : pyLower t = k
      · rw [if_pos hk, if_pos hk, ← hk, hl]
        rfl
      · rw [if_neg hk, if_neg hk]
  | some st =>
      have hp : processTopic repo m t = setTopic m (pyLower t) (updateStat repo st) := by
        simp only [processTopic, hl]
      rw [hp]
      by_cases hk : pyLower t = k
      · rw [← hk, lookupTopic_setTopic_self m _ _ st hl, if_pos rfl, hl]
        rfl
      · rw [lookupTopic_setTopic_ne m _ k _ (fun e => hk e.symm), if_neg hk]

theorem lookupTopic_foldl_topics (repo : Cell) (ts : List String) (m : TopicMap)
    (k : String) :
    lookupTopic (ts.foldl (processTopic repo) m) k =
      ((ts.map (fun t => (repo, t))).filter (fun p => pyLower p.2 == k)).foldl stepStat
        (lookupTopic m k) := by
  induction ts generalizing m with
  | nil => rfl
  | cons t ts ih =>
      simp only [List.foldl_cons, List.map_cons, List.filter_cons]
      rw [ih]
      by_cases hk : pyLower t = k
      · simp [hk, lookupTopic_processTopic]
      · simp [hk, lookupTopic_processTopic]

theorem lookupTopic_foldl_records (rs : List Record) (m : TopicMap) (k : String) :
    lookupTopic (rs.foldl processRecord m) k =
      ((occPairs rs).filter (fun p => pyLower p.2 == k)).foldl stepStat
        (lookupTopic m k) := by
  induction rs generalizing m with
  | nil => rfl
  | cons r rs ih =>
      simp only [List.foldl_cons, occPairs]
      rw [List.filter_append, List.foldl_append, ih]
      congr 1
      unfold processRecord recordPairs
      by_cases hs : skipTopics r.topics
      · simp [hs]
      · simp only [hs, Bool.false_eq_true, if_false]
        rw [lookupTopic_foldl_topics]

theorem lookupTopic_count_topics (rs : List Record) (k : String) :
    lookupTopic (count_topics_from_csv rs) k =
      ((occPairs rs).filter (fun p => pyLower p.2 == k)).foldl stepStat none :=
  lookupTopic_foldl_records rs [] k

/-! ### Elementary facts about one update step -/

theorem updateStat_topic (repo : Cell) (st : TopicStat) :
    (updateStat repo st).topic = st.topic := by
  simp only [updateStat]
  split <;> rfl

theorem updateStat_count (repo : Cell) (st : TopicStat) :
    (updateStat repo st).count = st.count + 1 := by
  simp only [updateStat]
  split <;> rfl

theorem updateStat_repos_length (repo : Cell) (st : TopicStat) :
    (updateStat repo st).repos.length ≤ st.repos.length + 1 := by
  simp only [updateStat]
  split
  · simp
  · simp [Nat.le_succ]

theorem foldl_stepStat_some (l : List (Cell × String)) :
    ∀ st : TopicStat, ∃ st', l.foldl stepStat (some st) = some st' ∧
      st'.topic = st.topic ∧ st'.count = st.count + l.length ∧
      st'.repos.length ≤ st.repos.length + l.length := by
  induction l with
  | nil => exact fun st => ⟨st, rfl, rfl, rfl, Nat.le_refl _⟩
  | cons p l ih =>
      intro st
      obtain ⟨st', h1, h2, h3, h4⟩ := ih (updateStat p.1 st)
      refine ⟨st', ?_, ?_, ?_, ?_⟩
      · simpa [stepStat] using h1
      · rw [h2, updateStat_topic]
      · rw [h3, updateStat_count]
        simp [Nat.add_assoc, Nat.add_comm 1 l.length]
      · have h5 := updateStat_repos_length p.1 st
        simp only [List.length_cons]
        omega

theorem foldl_stepStat_cons (p : Cell × String) (l : List (Cell × String)) :
    ∃ st', ((p :: l).foldl stepStat none) = some st' ∧
      st'.topic = p.2 ∧ st'.count = l.length + 1 ∧ st'.repos.length ≤ st'.count := by
  obtain ⟨st', h1, h2, h3, h4⟩ :=
    foldl_stepStat_some l (updateStat p.1 { topic := p.2, count := 0, repos := [] })
  have ht : (updateStat p.1 { topic := p.2, count := 0, repos := [] }).topic = p.2 :=
    updateStat_topic _ _
  have hc : (updateStat p.1 { topic := p.2, count := 0, repos := [] }).count = 1 :=
    updateStat_count _ _
  have hr : (updateStat p.1 { topic := p.2, count := 0, repos := [] }).repos.length ≤ 1 :=
    updateStat_repos_length _ _
  refine ⟨st', ?_, ?_, ?_, ?_⟩
  · simpa [stepStat] using h1
  · rw [h2, ht]
  · rw [h3, hc]
    omega
  · rw [h3, hc] at *
    omega

/-! ### Whitespace facts about the stripped labels -/

theorem head_dropWhile_not {α : Type} (p : α → Bool) :
    ∀ (l : List α) (c : α), (l.dropWhile p).head? = some c → p c = false := by
  intro l
  induction l with
  | nil => intro c h; simp [List.dropWhile] at h
  | cons a l ih =>
      intro c h
      rw [List.dropWhile_cons] at h
      by_cases ha : p a = true
      · rw [if_pos ha] at h
        exact ih c h
      · rw [if_neg ha] at h
        simp only [List.head?_cons, Option.some.injEq] at h
        rw [← h]
        exact Bool.eq_false_iff.mpr ha

theorem getLast_dropWhile_of_ne_nil {α : Type} (p : α → Bool) :
    ∀ (l : List α), l.dropWhile p ≠ [] →
      (l.dropWhile p).getLast? = l.getLast? := by
  intro l
  induction l with
  | nil => intro h; simp [List.dropWhile] at h
  | cons a l ih =>
      intro h
      rw [List.dropWhile_cons] at h ⊢
      by_cases ha : p a = true
      · rw [if_pos ha] at h ⊢
        have hl : l ≠ [] := by
          intro e
          rw [e] at h
          simp [List.dropWhile] at h
        obtain ⟨b, l', rfl⟩ := List.exists_cons_of_ne_nil hl
        rw [List.getLast?_cons_cons]
        exact ih h
      · rw [if_neg ha]

theorem trimList_head (l : List Char) (c : Char)
    (h : (trimList l).head? = some c) : c.isWhitespace = false := by
  unfold trimList at h
  rw [List.head?_reverse] at h
  have hne : (l.dropWhile Char.isWhitespace).reverse.dropWhile Char.isWhitespace ≠ [] := by
    intro e
    rw [e] at h
    simp at h
  rw [getLast_dropWhile_of_ne_nil _ _ hne, List.getLast?_reverse] at h
  exact head_dropWhile_not _ _ _ h

theorem trimList_getLast (l : List Char) (c : Char)
    (h : (trimList l).getLast? = some c) : c.isWhitespace = false := by
  unfold trimList at h
  rw [List.getLast?_reverse] at h
  exact head_dropWhile_not _ _ _ h

theorem noEdgeWs_pyTrim (s : String) : noEdgeWs (pyTrim s) = true := by
  unfold noEdgeWs pyTrim
  rw [Bool.and_eq_true]
  constructor
  · cases h1 : (trimList s.data).head? with
    | none => simp [h1]
    | some c => simp [h1, trimList_head s.data c h1]
  · cases h2 : (trimList s.data).getLast? with
    | none => simp [h2]
    | some c => simp [h2, trimList_getLast s.data c h2]

/-! ### Keys of the aggregation map -/

theorem topicKeys_setTopic (m : TopicMap) (key : String) (v : TopicStat) :
    topicKeys (setTopic m key v) = topicKeys m := by
  induction m with
  | nil => rfl
  | cons e m ih =>
      obtain ⟨k0, w⟩ := e
      by_cases h : k0 = key
      · simp [setTopic, h, topicKeys]
      · simp only [setTopic, if_neg h, topicKeys, List.map_cons]
        rw [show (setTopic m key v).map Prod.fst = topicKeys (setTopic m key v) from rfl, ih]
        rfl

theorem lookupTopic_eq_none_iff (m : TopicMap) (k : String) :
    lookupTopic m k = none ↔ k ∉ topicKeys m := by
  induction m with
  | nil => simp [lookupTopic, topicKeys]
  | cons e m ih =>
      obtain ⟨k0, w⟩ := e
      by_cases h : k0 = k
      · subst h
        simp [lookupTopic, topicKeys]
      · simp only [lookupTopic, if_neg h, topicKeys, List.map_cons, List.mem_cons]
        rw [ih]
        simp only [topicKeys]
        constructor
        · intro hnm hor
          cases hor with
          | inl e => exact h e.symm
          | inr hm => exact hnm hm
        · intro hno hm
          exact hno (Or.inr hm)

theorem nodup_topicKeys_processTopic (repo : Cell) (m : TopicMap) (t : String)
    (h : (topicKeys m).Nodup) : (topicKeys (processTopic repo m t)).Nodup := by
  cases hl : lookupTopic m (pyLower t) with
  | some st =>
      have hp : processTopic repo m t = setTopic m (pyLower t) (updateStat repo st) := by
        simp only [processTopic, hl]
      rw [hp, topicKeys_setTopic]
      exact h
  | none =>
      have hp : processTopic repo m t
          = m ++ [(pyLower t, updateStat repo { topic := t, count := 0, repos := [] })] := by
        simp only [processTopic, hl]
      have hk : pyLower t ∉ topicKeys m := (lookupTopic_eq_none_iff m (pyLower t)).mp hl
      rw [hp]
      simp only [topicKeys, List.map_append, List.map_cons, List.map_nil]
      rw [List.nodup_append]
      refine ⟨h, List.nodup_singleton _, ?_⟩
      intro a ha hb
      simp only [List.mem_singleton] at hb
      subst hb
      exact hk ha

theorem nodup_topicKeys_foldl_topics (repo : Cell) (ts : List String) :
    ∀ m : TopicMap, (topicKeys m).Nodup →
      (topicKeys (ts.foldl (processTopic repo) m)).Nodup := by
  induction ts with
  | nil => exact fun m h => h
  | cons t ts ih =>
      intro m h
      exact ih _ (nodup_topicKeys_processTopic repo m t h)

theorem nodup_topicKeys_foldl (rs : List Record) :
    ∀ m : TopicMap, (topicKeys m).Nodup →
      (topicKeys (rs.foldl processRecord m)).Nodup := by
  induction rs with
  | nil => exact fun m h => h
  | cons r rs ih =>
      intro m h
      apply ih
      unfold processRecord
      by_cases hs : skipTopics r.topics = true
      · simpa [hs] using h
      · simp only [hs, if_false]
        exact nodup_topicKeys_foldl_topics _ _ m h

theorem nodup_topicKeys_count_topics (rs : List Record) :
    (topicKeys (count_topics_from_csv rs)).Nodup :=
  nodup_topicKeys_foldl rs [] (by simp [topicKeys])

theorem lookupTopic_of_mem (m : TopicMap) (k : String) (st : TopicStat)
    (hn : (topicKeys m).Nodup) (hm : (k, st) ∈ m) : lookupTopic m k = some st := by
  induction m with
  | nil => cases hm
  | cons e m ih =>
      obtain ⟨k0, w⟩ := e
      simp only [topicKeys, List.map_cons, List.nodup_cons] at hn
      rw [List.mem_cons] at hm
      cases hm with
      | inl h =>
          injection h with h1 h2
          subst h1
          subst h2
          simp [lookupTopic]
      | inr h =>
          by_cases hk : k0 = k
          · subst hk
            exact absurd (List.mem_map_of_mem Prod.fst h) hn.1
          · simp only [lookupTopic, if_neg hk]
            exact ih hn.2 h

/-! ### Occurrence-list bookkeeping -/

theorem filter_map_snd (l : List (Cell × String)) (q : String → Bool) :
    (l.map Prod.snd).filter q = (l.filter (fun p => q p.2)).map Prod.snd := by
  induction l with
  | nil => rfl
  | cons p l ih =>
      by_cases h : q p.2 = true
      · simp [List.filter_cons, h, ih]
      · simp [List.filter_cons, h, ih]

theorem find_eq_head_filter {α : Type} (q : α → Bool) :
    ∀ l : List α, l.find? q = (l.filter q).head? := by
  intro l
  induction l with
  | nil => rfl
  | cons a l ih =>
      by_cases h : q a = true
      · rw [List.find?_cons_of_pos _ h, List.filter_cons, if_pos h, List.head?_cons]
      · rw [List.find?_cons_of_neg _ h, List.filter_cons, if_neg h, ih]

theorem mem_occPairs_topic (rs : List Record) (p : Cell × String)
    (hp : p ∈ occPairs rs) :
    p.2 ≠ "" ∧ noEdgeWs p.2 = true := by
  induction rs with
  | nil => cases hp
  | cons r rs ih =>
      simp only [occPairs, List.mem_append] at hp
      cases hp with
      | inr h => exact ih h
      | inl h =>
          unfold recordPairs at h
          by_cases hs : skipTopics r.topics = true
          · rw [if_pos hs] at h
            cases h
          · rw [if_neg hs] at h
            rw [List.mem_map] at h
            obtain ⟨t, ht, rfl⟩ := h
            unfold parseTopics at ht
            rw [List.mem_filter] at ht
            obtain ⟨htm, hne⟩ := ht
            rw [List.mem_map] at htm
            obtain ⟨raw, _, rfl⟩ := htm
            exact ⟨bne_iff_ne.mp hne, noEdgeWs_pyTrim raw⟩

/-! ### The stable descending sort -/

theorem mem_insertByCountDesc (x z : TopicStat) :
    ∀ l : List TopicStat, z ∈ insertByCountDesc x l → z = x ∨ z ∈ l := by
  intro l
  induction l with
  | nil =>
      intro h
      simp only [insertByCountDesc, List.mem_singleton] at h
      exact Or.inl h
  | cons y ys ih =>
      intro h
      unfold insertByCountDesc at h
      by_cases hc : x.count ≤ y.count
      · rw [if_pos hc] at h
        rw [List.mem_cons] at h
        cases h with
        | inl h =>
            rw [h]
            exact Or.inr (List.mem_cons_self y ys)
        | inr h =>
            cases ih h with
            | inl h => exact Or.inl h
            | inr h => exact Or.inr (List.mem_cons_of_mem y h)
      · rw [if_neg hc] at h
        rw [List.mem_cons] at h
        cases h with
        | inl h => exact Or.inl h
        | inr h => exact Or.inr h

theorem pairwise_insertByCountDesc (x : TopicStat) :
    ∀ l : List TopicStat, l.Pairwise (fun a b => b.count ≤ a.count) →
      (insertByCountDesc x l).Pairwise (fun a b => b.count ≤ a.count) := by
  intro l
  induction l with
  | nil => intro _; simp [insertByCountDesc]
  | cons y ys ih =>
      intro h
      rw [List.pairwise_cons] at h
      unfold insertByCountDesc
      by_cases hc : x.count ≤ y.count
      · rw [if_pos hc, List.pairwise_cons]
        refine ⟨?_, ih h.2⟩
        intro z hz
        cases mem_insertByCountDesc x z ys hz with
        | inl e => rw [e]; exact hc
        | inr hm => exact h.1 z hm
      · rw [if_neg hc, List.pairwise_cons]
        have hyx : y.count ≤ x.count := Nat.le_of_lt (Nat.lt_of_not_le hc)
        refine ⟨?_, List.pairwise_cons.mpr h⟩
        intro z hz
        rw [List.mem_cons] at hz
        cases hz with
        | inl e => rw [e]; exact hyx
        | inr hm => exact Nat.le_trans (h.1 z hm) hyx

theorem length_insertByCountDesc (x : TopicStat) :
    ∀ l : List TopicStat, (insertByCountDesc x l).length = l.length + 1 := by
  intro l
  induction l with
  | nil => rfl
  | cons y ys ih =>
      unfold insertByCountDesc
      by_cases hc : x.count ≤ y.count
      · rw [if_pos hc]
        simp [ih]
      · rw [if_neg hc]
        simp

theorem filter_insertByCountDesc (x : TopicStat) (c : Nat) :
    ∀ l : List TopicStat, l.Pairwise (fun a b => b.count ≤ a.count) →
      (insertByCountDesc x l).filter (fun s => s.count == c) =
        l.filter (fun s => s.count == c) ++ (if x.count == c then [x] else []) := by
  intro l
  induction l with
  | nil =>
      intro _
      by_cases h : x.count == c
      · simp [insertByCountDesc, List.filter_cons, h]
      · simp [insertByCountDesc, List.filter_cons, h]
  | cons y ys ih =>
      intro hp
      rw [List.pairwise_cons] at hp
      unfold insertByCountDesc
      by_cases hc : x.count ≤ y.count
      · rw [if_pos hc, List.filter_cons, List.filter_cons]
        by_cases hy : (y.count == c) = true
        · rw [if_pos hy, if_pos hy, ih hp.2, List.cons_append]
        · rw [if_neg hy, if_neg hy, ih hp.2]
      · rw [if_neg hc]
        have hlt : y.count < x.count := Nat.lt_of_not_le hc
        by_cases hx : (x.count == c) = true
        · have hcx : x.count = c := beq_iff_eq.mp hx
          have hnil : (y :: ys).filter (fun s => s.count == c) = [] := by
            rw [List.filter_eq_nil_iff]
            intro a ha hb
            have hac : a.count ≤ y.count := by
              rw [List.mem_cons] at ha
              cases ha with
              | inl e => subst e; exact Nat.le_refl _
              | inr hm => exact hp.1 a hm
            have hc2 : a.count = c := beq_iff_eq.mp hb
            omega
          rw [List.filter_cons, if_pos hx, hnil, if_pos hx, List.nil_append]
        · rw [List.filter_cons, if_neg hx, if_neg hx, List.append_nil]

theorem sortFold_pairwise (l : List TopicStat) :
    ∀ acc : List TopicStat, acc.Pairwise (fun a b => b.count ≤ a.count) →
      (l.foldl (fun a x => insertByCountDesc x a) acc).Pairwise
        (fun a b => b.count ≤ a.count) := by
  induction l with
  | nil => exact fun acc h => h
  | cons x l ih =>
      intro acc h
      exact ih _ (pairwise_insertByCountDesc x acc h)

theorem sortFold_length (l : List TopicStat) :
    ∀ acc : List TopicStat,
      (l.foldl (fun a x => insertByCountDesc x a) acc).length = acc.length + l.length := by
  induction l with
  | nil => intro acc; simp
  | cons x l ih =>
      intro acc
      rw [List.foldl_cons, ih, length_insertByCountDesc]
      simp only [List.length_cons]
      omega

theorem sortFold_filter (c : Nat) (l : List TopicStat) :
    ∀ acc : List TopicStat, acc.Pairwise (fun a b => b.count ≤ a.count) →
      (l.foldl (fun a x => insertByCountDesc x a) acc).filter (fun s => s.count == c) =
        acc.filter (fun s => s.count == c) ++ l.filter (fun s => s.count == c) := by
  induction l with
  | nil => intro acc _; simp
  | cons x l ih =>
      intro acc h
      rw [List.foldl_cons, ih _ (pairwise_insertByCountDesc x acc h),
        filter_insertByCountDesc x c acc h, List.append_assoc, List.filter_cons]
      by_cases hx : (x.count == c) = true
      · rw [if_pos hx, if_pos hx, List.singleton_append]
      · rw [if_neg hx, if_neg hx, List.nil_append]

theorem sortByCountDesc_pairwise (l : List TopicStat) :
    (sortByCountDesc l).Pairwise (fun a b => b.count ≤ a.count) :=
  sortFold_pairwise l [] List.Pairwise.nil

theorem sortByCountDesc_length (l : List TopicStat) :
    (sortByCountDesc l).length = l.length := by
  unfold sortByCountDesc
  rw [sortFold_length]
  simp

theorem sortByCountDesc_filter (c : Nat) (l : List TopicStat) :
    (sortByCountDesc l).filter (fun s => s.count == c) =
      l.filter (fun s => s.count == c) := by
  unfold sortByCountDesc
  rw [sortFold_filter c l [] List.Pairwise.nil]
  rfl

/-! ### The claims -/

/-- C1 (counterexample): the claim says every produced `count` equals the
number of *records* whose trimmed, comma-split topics list contains the
label (case-insensitively).  It is false: the code increments once per
occurrence, so the single record with topics `"go,go"` produces count 2
while only one record contains the label. -/
theorem C1_count_per_record_counterexample :
    ¬ (∀ (records : List Record) (k : String) (st : TopicStat),
        (k, st) ∈ count_topics_from_csv records →
        st.count = recordsContaining records k) := by
  intro h
  have h2 := h [{ repo_name := Cell.str ("repoA"), topics := Cell.str ("go,go") }]
    ("go") { topic := ("go"), count := 2, repos := [Cell.str ("repoA")] } (by decide)
  have h3 : recordsContaining
      [{ repo_name := Cell.str ("repoA"), topics := Cell.str ("go,go") }] ("go") = 1 := by
    decide
  rw [h3] at h2
  exact absurd h2 (by decide)

/-- C1 (amended): every produced `count` equals the number of
*occurrences* of the label, under case-insensitive comparison, across the
trimmed, comma-split topics lists of all records. -/
theorem C1_count_occurrences (records : List Record) (k : String) (st : TopicStat)
    (h : (k, st) ∈ count_topics_from_csv records) :
    st.count = ((occList records).filter (fun t => pyLower t == k)).length := by
  have hn := nodup_topicKeys_count_topics records
  have hl := lookupTopic_of_mem _ _ _ hn h
  rw [lookupTopic_count_topics] at hl
  cases hF : (occPairs records).filter (fun p => pyLower p.2 == k) with
  | nil =>
      rw [hF] at hl
      cases hl
  | cons p l =>
      rw [hF] at hl
      obtain ⟨st', h1, h2, h3, h4⟩ := foldl_stepStat_cons p l
      rw [h1] at hl
      injection hl with hl
      subst hl
      unfold occList
      rw [filter_map_snd, hF, List.length_map, List.length_cons]
      exact h3

/-- C1 witness: on the record list `[(repoA, "go,go")]` the entry for key
`"go"` has count 2, the number of occurrences. -/
theorem C1_count_occurrences_witness :
    ((("go" : String),
        ({ topic := ("go"), count := 2, repos := [Cell.str ("repoA")] } : TopicStat)) ∈
        count_topics_from_csv
          [{ repo_name := Cell.str ("repoA"), topics := Cell.str ("go,go") }]) ∧
      ({ topic := ("go"), count := 2, repos := [Cell.str ("repoA")] } : TopicStat).count =
        ((occList [{ repo_name := Cell.str ("repoA"), topics := Cell.str ("go,go") }]).filter
          (fun t => pyLower t == ("go" : String))).length :=
  ⟨by decide, C1_count_occurrences _ _ _ (by decide)⟩

/-- C2: the single record with topics `"  Go ,Go,go "` and repository
`repoA` yields exactly one merged entry, keyed `"go"`, displaying the
first-seen spelling `"Go"`, with count 3 and a one-element repos list. -/
theorem C2_go_merge_example :
    count_topics_from_csv
        [{ repo_name := Cell.str ("repoA"), topics := Cell.str ("  Go ,Go,go ") }] =
      [(("go" : String), { topic := ("Go"), count := 3, repos := [Cell.str ("repoA")] })] := by
  decide

/-- C3 (counterexample): the claim says a record whose topics field is
missing, empty, *or not a string* contributes nothing.  False: a
non-string, non-missing topics value (e.g. the number 3.5) is passed
through `str()` and counted as the label `"3.5"`. -/
theorem C3_nonstring_counterexample :
    ¬ (∀ r : Record,
        (pdIsna r.topics || cellEqEmptyString r.topics || !cellIsStr r.topics) = true →
        count_topics_from_csv [r] = []) := by
  intro h
  have h2 := h { repo_name := Cell.str ("repoA"), topics := Cell.other ("3.5") true }
    (by decide)
  exact absurd h2 (by decide)

/-- C3 (amended): a record whose topics cell is missing (NaN) or the empty
string contributes nothing to the mapping — deleting it from the sequence
leaves the result unchanged — and no error is raised (the embedding is
total).  A non-string, non-missing value is instead stringified and
processed. -/
theorem C3_skip_missing_empty (rs1 rs2 : List Record) (r : Record)
    (h : skipTopics r.topics = true) :
    count_topics_from_csv (rs1 ++ r :: rs2) = count_topics_from_csv (rs1 ++ rs2) := by
  unfold count_topics_from_csv
  rw [List.foldl_append, List.foldl_append, List.foldl_cons]
  congr 1
  unfold processRecord
  rw [if_pos h]

/-- C3 witness: a NaN-topics record in the middle of a sequence changes
nothing. -/
theorem C3_skip_missing_empty_witness :
    skipTopics (Record.topics { repo_name := Cell.str ("b"), topics := Cell.nan }) = true ∧
      count_topics_from_csv
          ([] ++ { repo_name := Cell.str ("b"), topics := Cell.nan } ::
            [{ repo_name := Cell.str ("a"), topics := Cell.str ("x") }]) =
        count_topics_from_csv
          ([] ++ [{ repo_name := Cell.str ("a"), topics := Cell.str ("x") }]) :=
  ⟨by decide, C3_skip_missing_empty [] _ _ (by decide)⟩

/-- C4: the ranked output has length `min top_n (number of labels)`, is
sorted by count descending, and is stable: for every count value, the
entries carrying it appear in the order of the corresponding values of the
mapping (insertion order), the whole count-class of the output being an
initial segment of the count-class of the mapping. -/
theorem C4_rank_spec (m : TopicMap) (n : Nat) :
    (generate_wordcloud_data m n).length = min n m.length ∧
    (generate_wordcloud_data m n).Pairwise (fun a b => b.count ≤ a.count) ∧
    ∀ c : Nat, ∃ rest : List RankedEntry,
      ((m.map Prod.snd).filter (fun s => s.count == c)).map toRankedEntry =
        (generate_wordcloud_data m n).filter (fun e => e.count == c) ++ rest := by
  refine ⟨?_, ?_, ?_⟩
  · simp only [generate_wordcloud_data]
    rw [List.length_map, List.length_take, sortByCountDesc_length, List.length_map]
  · simp only [generate_wordcloud_data]
    rw [List.pairwise_map]
    exact List.Pairwise.sublist (List.take_sublist n _) (sortByCountDesc_pairwise _)
  · intro c
    refine ⟨(((sortByCountDesc (m.map Prod.snd)).drop n).filter
      (fun s => s.count == c)).map toRankedEntry, ?_⟩
    simp only [generate_wordcloud_data]
    have hpf : ((fun e : RankedEntry => e.count == c) ∘ toRankedEntry) =
        (fun s : TopicStat => s.count == c) := rfl
    conv_rhs => rw [List.filter_map, hpf, ← List.map_append, ← List.filter_append,
      List.take_append_drop, sortByCountDesc_filter]

/-- C5: labels differing only in case are merged: the map's keys are
pairwise distinct, every occurring label is found under its lowercased
key, and the display label stored there is the first-encountered spelling
among the case-equivalent occurrences. -/
theorem C5_case_insensitive_merge (records : List Record) :
    (topicKeys (count_topics_from_csv records)).Nodup ∧
    ∀ t : String, t ∈ occList records →
      ∃ st : TopicStat,
        lookupTopic (count_topics_from_csv records) (pyLower t) = some st ∧
        (occList records).find? (fun u => pyLower u == pyLower t) = some st.topic := by
  refine ⟨nodup_topicKeys_count_topics records, ?_⟩
  intro t ht
  unfold occList at ht
  rw [List.mem_map] at ht
  obtain ⟨p, hpmem, hpt⟩ := ht
  have hpred : (pyLower p.2 == pyLower t) = true := by
    rw [hpt]
    exact beq_iff_eq.mpr rfl
  have hmemF : p ∈ (occPairs records).filter (fun q => pyLower q.2 == pyLower t) :=
    List.mem_filter.mpr ⟨hpmem, hpred⟩
  cases hF : (occPairs records).filter (fun q => pyLower q.2 == pyLower t) with
  | nil =>
      rw [hF] at hmemF
      cases hmemF
  | cons p0 l =>
      obtain ⟨st', h1, h2, h3, h4⟩ := foldl_stepStat_cons p0 l
      refine ⟨st', ?_, ?_⟩
      · rw [lookupTopic_count_topics, hF, h1]
      · unfold occList
        rw [find_eq_head_filter, filter_map_snd, hF, List.map_cons, List.head?_cons, h2]

/-- C5 witness: with records `[(r1, "Go"), (r2, "go")]` the occurrence
`"Go"` is found under key `"go"` with the first spelling retained. -/
theorem C5_case_insensitive_merge_witness :
    (("Go" : String) ∈ occList
        [{ repo_name := Cell.str ("r1"), topics := Cell.str ("Go") },
         { repo_name := Cell.str ("r2"), topics := Cell.str ("go") }]) ∧
      ∃ st : TopicStat,
        lookupTopic (count_topics_from_csv
            [{ repo_name := Cell.str ("r1"), topics := Cell.str ("Go") },
             { repo_name := Cell.str ("r2"), topics := Cell.str ("go") }])
          (pyLower ("Go")) = some st ∧
        (occList
            [{ repo_name := Cell.str ("r1"), topics := Cell.str ("Go") },
             { repo_name := Cell.str ("r2"), topics := Cell.str ("go") }]).find?
          (fun u => pyLower u == pyLower ("Go")) = some st.topic :=
  ⟨by decide,
    (C5_case_insensitive_merge
      [{ repo_name := Cell.str ("r1"), topics := Cell.str ("Go") },
       { repo_name := Cell.str ("r2"), topics := Cell.str ("go") }]).2 ("Go") (by decide)⟩

/-- C6 (code evidence): a record whose repository cell is missing — pandas
yields the float NaN, which is *truthy* in Python — slips past the
`if repo_name` guard, so the missing identifier is appended to `repos`,
contradicting both the claim and the code's own later assumption that
`repos` holds strings (`', '.join` in `save_excel`). -/
theorem C6_missing_repo_appended :
    count_topics_from_csv [{ repo_name := Cell.nan, topics := Cell.str ("go") }] =
      [(("go" : String), { topic := ("go"), count := 1, repos := [Cell.nan] })] := by
  decide

/-- C7 (counterexample): the all-or-none conjunct fails.  With the input
file present and the single row whose repository cell is missing (NaN)
and whose topics cell is `"go"`, aggregation puts the NaN cell into
`repos` (the C6 bug); `save_excel`'s `', '.join` then raises TypeError
after `save_json` and `save_csv` have written their files, so exactly two
artifacts exist — neither none nor all three. -/
theorem C7_all_or_none_counterexample :
    ¬ (∀ records : List Record,
        (mainModel true records).written = [] ∨
        (mainModel true records).written = [OUTPUT_JSON, OUTPUT_CSV, OUTPUT_EXCEL]) := by
  intro h
  cases h [{ repo_name := Cell.nan, topics := Cell.str ("go") }] with
  | inl h2 => exact absurd h2 (by decide)
  | inr h2 => exact absurd h2 (by decide)

/-- C7 (amended): when the input file is absent, `main` reports it and
neither aggregates nor writes anything.  Otherwise it aggregates once,
`save_json` and `save_csv` always write, and the Excel artifact of the
same pass is written exactly when every aggregated repos list holds only
strings in its joined ten-element prefix; when some entry holds a
non-string cell (the NaN of a missing repository identifier), the join in
`save_excel` raises and the run ends with partial output — the first two
artifacts only. -/
theorem C7_main_artifacts (records : List Record) :
    mainModel false records =
      { reported_missing := true, topic_map := none, written := [] } ∧
    mainModel true records =
      { reported_missing := false
        topic_map := some (count_topics_from_csv records)
        written :=
          if excelJoinOk (count_topics_from_csv records) then
            [OUTPUT_JSON, OUTPUT_CSV, OUTPUT_EXCEL]
          else [OUTPUT_JSON, OUTPUT_CSV] } := by
  refine ⟨rfl, ?_⟩
  by_cases h : excelJoinOk (count_topics_from_csv records) = true
  · simp [mainModel, h]
  · simp [mainModel, h]

/-- C8: aggregation is deterministic — the embedding is a pure function of
the record sequence (the Python loop consults no other state and no
randomness), so two runs agree on the whole map and on every lookup. -/
theorem C8_deterministic (records : List Record) :
    count_topics_from_csv records = count_topics_from_csv records ∧
    ∀ k : String, lookupTopic (count_topics_from_csv records) k =
      lookupTopic (count_topics_from_csv records) k :=
  ⟨rfl, fun _ => rfl⟩

/-- C9: every entry of the aggregation map has `count ≥ 1`, and its repos
list is never longer than its count (a repo is appended at most once per
count increment, and deduplicated besides). -/
theorem C9_count_bounds (records : List Record) (k : String) (st : TopicStat)
    (h : (k, st) ∈ count_topics_from_csv records) :
    1 ≤ st.count ∧ st.repos.length ≤ st.count := by
  have hn := nodup_topicKeys_count_topics records
  have hl := lookupTopic_of_mem _ _ _ hn h
  rw [lookupTopic_count_topics] at hl
  cases hF : (occPairs records).filter (fun p => pyLower p.2 == k) with
  | nil =>
      rw [hF] at hl
      cases hl
  | cons p l =>
      rw [hF] at hl
      obtain ⟨st', h1, h2, h3, h4⟩ := foldl_stepStat_cons p l
      rw [h1] at hl
      injection hl with hl
      subst hl
      exact ⟨by omega, h4⟩

/-- C9 witness: for `[(repoA, "go,go")]` the unique entry has count 2 ≥ 1
and one repo ≤ 2. -/
theorem C9_count_bounds_witness :
    ((("go" : String),
        ({ topic := ("go"), count := 2, repos := [Cell.str ("repoA")] } : TopicStat)) ∈
        count_topics_from_csv
          [{ repo_name := Cell.str ("repoA"), topics := Cell.str ("go,go") }]) ∧
      (1 ≤ ({ topic := ("go"), count := 2, repos := [Cell.str ("repoA")] } : TopicStat).count ∧
        ({ topic := ("go"), count := 2, repos := [Cell.str ("repoA")] } : TopicStat).repos.length ≤
          ({ topic := ("go"), count := 2, repos := [Cell.str ("repoA")] } : TopicStat).count) :=
  ⟨by decide,
    C9_count_bounds [{ repo_name := Cell.str ("repoA"), topics := Cell.str ("go,go") }]
      ("go") { topic := ("go"), count := 2, repos := [Cell.str ("repoA")] } (by decide)⟩

/-- C10: in every entry of the aggregation map the key is the lowercase
form of the stored display label, and the display label is a non-empty
string without leading or trailing whitespace. -/
theorem C10_key_display_invariant (records : List Record) (k : String) (st : TopicStat)
    (h : (k, st) ∈ count_topics_from_csv records) :
    k = pyLower st.topic ∧ st.topic ≠ ("") ∧ noEdgeWs st.topic = true := by
  have hn := nodup_topicKeys_count_topics records
  have hl := lookupTopic_of_mem _ _ _ hn h
  rw [lookupTopic_count_topics] at hl
  cases hF : (occPairs records).filter (fun p => pyLower p.2 == k) with
  | nil =>
      rw [hF] at hl
      cases hl
  | cons p l =>
      rw [hF] at hl
      obtain ⟨st', h1, h2, h3, h4⟩ := foldl_stepStat_cons p l
      rw [h1] at hl
      injection hl with hl
      subst hl
      have hpF : p ∈ (occPairs records).filter (fun q => pyLower q.2 == k) := by
        rw [hF]
        exact List.mem_cons_self p l
      rw [List.mem_filter] at hpF
      obtain ⟨hpm, hpq⟩ := hpF
      obtain ⟨hne, hws⟩ := mem_occPairs_topic records p hpm
      rw [h2]
      exact ⟨(beq_iff_eq.mp hpq).symm, hne, hws⟩

/-- C10 witness: the entry produced by `"  Go ,Go,go "` has key `"go"`,
the lowercase of its trimmed, non-empty display label `"Go"`. -/
theorem C10_key_display_invariant_witness :
    ((("go" : String),
        ({ topic := ("Go"), count := 3, repos := [Cell.str ("repoA")] } : TopicStat)) ∈
        count_topics_from_csv
          [{ repo_name := Cell.str ("repoA"), topics := Cell.str ("  Go ,Go,go ") }]) ∧
      (("go" : String) = pyLower ("Go") ∧ ("Go" : String) ≠ ("") ∧
        noEdgeWs ("Go") = true) :=
  ⟨by decide,
    C10_key_display_invariant
      [{ repo_name := Cell.str ("repoA"), topics := Cell.str ("  Go ,Go,go ") }]
      ("go") { topic := ("Go"), count := 3, repos := [Cell.str ("repoA")] } (by decide)⟩
